import Mathlib

/-!
Verification of the rsvp-reader word-stream, timing, position-mapping,
document-structuring, playback and session-persistence code.

Strings from the JavaScript source are modelled as `List Char`.  The JS
regex classes are modelled as follows: `\s` (whitespace) by
`Char.isWhitespace`, and `\p{L}` (Unicode letter) by `Char.isAlpha`
(the claims under scrutiny only involve words in the fragment where the
two letter classes agree).  JS numbers are modelled by `ℚ` (exact
rational arithmetic; the properties proved are order/equality facts that
are insensitive to float rounding at the scales involved), and array
indices by `Nat`/`Int`.
-/

namespace RSVP

/-- Models the JS `\s` whitespace class used by `split(/\s+/)` in
`rsvp-utils.js` `parseText`. -/
def isWs (c : Char) : Bool := c.isWhitespace

/-- Models the JS `\p{L}` Unicode-letter class used by `getORPIndex` and
`getActualORPIndex` (restricted to the ASCII fragment). -/
def isLetterChar (c : Char) : Bool := c.isAlpha

/-- Models `line.trim()` (strip leading and trailing whitespace). -/
def jsTrim (l : List Char) : List Char :=
  ((l.dropWhile isWs).reverse.dropWhile isWs).reverse

/-- Accumulator loop for `splitWS`: `acc` holds the characters of the
current word in reverse. -/
def splitWSGo : List Char → List Char → List (List Char)
  | [], acc => if acc = [] then [] else [acc.reverse]
  | c :: cs, acc =>
    if isWs c then
      if acc = [] then splitWSGo cs [] else acc.reverse :: splitWSGo cs []
    else splitWSGo cs (c :: acc)

/-- Models `line.split(/\s+/).filter(w => w.length > 0)` from
`parseText` (`rsvp-utils.js:22`): the maximal runs of non-whitespace
characters, in order. -/
def splitWS (l : List Char) : List (List Char) :=
  splitWSGo l []

/-- The synthetic paragraph-break token pushed by `parseText`
(`words.push('\n')`, `rsvp-utils.js:26`). -/
def breakTok : List Char := ['\n']

/-- Models `lineWords[0] = '⟩' + lineWords[0]` (`rsvp-utils.js:30`):
prefix the first token of the new paragraph with the
first-word-after-break marker. -/
def markFirst : List (List Char) → List (List Char)
  | [] => []
  | w :: ws => ('⟩' :: w) :: ws

/-- Models one iteration of the line loop of `parseText`
(`rsvp-utils.js:18-38`): trim the line, skip it when empty, otherwise
insert one break token plus the marked first word when a previous
paragraph already produced output, then append the line's words. -/
def processLine (words : List (List Char)) (rawLine : List Char) : List (List Char) :=
  let line := jsTrim rawLine
  if line = [] then words
  else
    let lineWords := splitWS line
    if words ≠ [] ∧ lineWords ≠ [] then words ++ breakTok :: markFirst lineWords
    else words ++ lineWords

/-- The line loop of `parseText` (`rsvp-utils.js:16-38`): fold
`processLine` over the lines, starting from the empty `words` array. -/
def parseTextLines (lines : List (List Char)) : List (List Char) :=
  lines.foldl processLine []

/-- Models `parseText` (`rsvp-utils.js:11-41`): split the text on `'\n'`
(`text.split(/\n/)`) and run the line loop (the `!text` guard returns
`[]` for the empty string, which the fold also yields). -/
def parseText (text : List Char) : List (List Char) :=
  parseTextLines (text.splitOn '\n')

/-! ### Timing engine (`rsvp-utils.js`) -/

/-- Models `word.startsWith('⟩') ? word.substring(1) : word`
(`rsvp-utils.js:65` and elsewhere): strip the first-word-after-break
marker. -/
def stripMarker (w : List Char) : List Char :=
  if w.head? = some '⟩' then w.tail else w

/-- Models `getORPIndex` (`rsvp-utils.js:61-76`): strip the break
marker, count the Unicode letters
(`cleanWord.replace(/[^\p{L}]/gu, "").length`), then apply the
threshold chain of `if`s.  The `!word` guard returns `0` for the empty
string, which the chain also yields. -/
def getORPIndex (w : List Char) : Nat :=
  if w = [] then 0
  else
    let cleanWord := stripMarker w
    let len := (cleanWord.filter isLetterChar).length
    if len ≤ 1 then 0
    else if len ≤ 3 then 0
    else if len ≤ 5 then 1
    else if len ≤ 9 then 2
    else if len ≤ 11 then 3
    else if len ≤ 14 then 4
    else if len ≤ 17 then 5
    else 6

/-- Models the character loop of `getActualORPIndex`
(`rsvp-utils.js:98-103`): walk the word, and at each letter either
return its character index (when `letterCount === orpIndex`) or bump
`letterCount`.  Returns `none` when the loop falls through. -/
def orpScan (cs : List Char) (orpIndex letterCount i : Nat) : Option Nat :=
  match cs with
  | [] => none
  | c :: rest =>
    if isLetterChar c then
      if letterCount = orpIndex then some i
      else orpScan rest orpIndex (letterCount + 1) (i + 1)
    else orpScan rest orpIndex letterCount (i + 1)

/-- Models `getActualORPIndex` (`rsvp-utils.js:89-106`): strip the
marker, compute the ORP letter index, scan for the character position of
that letter, and fall back to `Math.min(orpIndex, cleanWord.length - 1)`
when the word has fewer letters.  The result is an `Int` because the JS
fallback can evaluate to `-1` (for `cleanWord.length === 0`). -/
def getActualORPIndex (w : List Char) : Int :=
  if w = [] then 0
  else
    let cleanWord := stripMarker w
    let orpIndex := getORPIndex cleanWord
    match orpScan cleanWord orpIndex 0 0 with
    | some i => (i : Int)
    | none => min (orpIndex : Int) ((cleanWord.length : Int) - 1)

/-- Models the `/[.!?;:]$/` test of `getWordDelay`
(`rsvp-utils.js:155`). -/
def endsInSentencePunct (w : List Char) : Bool :=
  match w.getLast? with
  | some c => c = '.' || c = '!' || c = '?' || c = ';' || c = ':'
  | none => false

/-- Models `getWordDelay` (`rsvp-utils.js:120-165`) over exact rational
arithmetic.  The guards, the break-token early return, the
first-after-break 1.5 bump, the long-word factor
`1 + (mult/100) * (len - 12)` for `cleanWord.length >= 12`, and the
trailing-punctuation multipliers are taken in source order. -/
def getWordDelay (word : List Char) (wordsPerMinute : ℚ)
    (pauseOnPunctuation : Bool) (punctuationMultiplier : ℚ)
    (wordLengthWPMMultiplier : ℚ) (lineBreakMultiplier : ℚ) : ℚ :=
  if word = [] then 60000 / wordsPerMinute
  else if wordsPerMinute ≤ 0 then 200
  else
    let baseDelay : ℚ := 60000 / wordsPerMinute
    if word = breakTok then baseDelay * lineBreakMultiplier
    else
      let isFirstAfterBreak := word.head? = some '⟩'
      let cleanWord := stripMarker word
      let base1 := if isFirstAfterBreak then baseDelay * (3 / 2) else baseDelay
      let base2 :=
        if 0 < wordLengthWPMMultiplier ∧ 12 ≤ cleanWord.length then
          base1 * (1 + (wordLengthWPMMultiplier / 100) * ((cleanWord.length : ℚ) - 12))
        else base1
      if pauseOnPunctuation ∧ endsInSentencePunct cleanWord then
        base2 * punctuationMultiplier
      else if pauseOnPunctuation ∧ cleanWord.getLast? = some ',' then
        base2 * (3 / 2)
      else base2

/-- Models `shouldPauseAtWord` (`rsvp-utils.js:216-220`). -/
def shouldPauseAtWord (wordIndex : Nat) (pauseAfterWords : Nat) : Bool :=
  if pauseAfterWords = 0 then false
  else if wordIndex = 0 then false
  else wordIndex % pauseAfterWords = 0

/-! ### Position mapper (`content-utils.js`) -/

/-- A chapter's global word-interval data, as computed by
`calculateWordBoundaries` / `buildWordBoundaries`. -/
structure Chapter where
  startWordIndex : Nat
  endWordIndex : Nat
  wordCount : Nat
  deriving Repr, DecidableEq

/-- An image marker: global (or chapter-relative, before
`buildWordBoundaries` shifts it) word position plus the
`unavailable` flag set by `resolveAndExtractImages`. -/
structure ImageMarker where
  wordPosition : Nat
  unavailable : Bool
  deriving Repr, DecidableEq

/-- The chapter list and global image list of a `contentStructure`. -/
structure ContentStructure where
  chapters : List Chapter
  images : List ImageMarker
  deriving Repr, DecidableEq

/-- Models `getChapterAtWordIndex` (`content-utils.js:12-20`):
`findIndex` of the first chapter whose `[start, end)` interval contains
`wordIndex`, defaulting to `0` when none matches. -/
def getChapterAtWordIndex (cs : ContentStructure) (wordIndex : Int) : Nat :=
  match cs.chapters.findIdx? (fun ch =>
      (ch.startWordIndex : Int) ≤ wordIndex && wordIndex < (ch.endWordIndex : Int)) with
  | some i => i
  | none => 0

/-- Models `getWordIndexFromScroll` (`content-utils.js:28-35`):
`startWordIndex + Math.floor(chapterWordCount * (scrollPercentage / 100))`.
No clamping is performed by the source. -/
def getWordIndexFromScroll (chapter : Chapter) (scrollPercentage : ℚ) : Int :=
  let chapterWordCount : Int := (chapter.endWordIndex : Int) - (chapter.startWordIndex : Int)
  let offset : Int := ⌊(chapterWordCount : ℚ) * (scrollPercentage / 100)⌋
  (chapter.startWordIndex : Int) + offset

/-- Models `getScrollPercentageInChapter` (`content-utils.js:43-52`):
`(wordIndex - start) / (end - start) * 100`, `0` for a zero-width
chapter. -/
def getScrollPercentageInChapter (chapter : Chapter) (wordIndex : Int) : ℚ :=
  let offset : ℚ := (wordIndex : ℚ) - (chapter.startWordIndex : ℚ)
  let total : ℚ := (chapter.endWordIndex : ℚ) - (chapter.startWordIndex : ℚ)
  if total = 0 then 0 else offset / total * 100

/-! ### Document structurer, PDF path (`file-parsers.js`) -/

/-- Models `array.join('\n\n')` on a list of page/chapter texts. -/
def joinNN (pages : List (List Char)) : List Char :=
  (pages.intersperse ['\n', '\n']).flatten

/-- Models `array.slice(a, b)` (for `0 ≤ a ≤ b` clamped to the array,
which is how the source uses it). -/
def jsSlice (l : List (List Char)) (a b : Nat) : List (List Char) :=
  (l.drop a).take (b - a)

/-- A chapter as produced by `buildChaptersFromOutline` /
`buildPageBasedChapters`, restricted to the `plainText` field — the only
field `calculateWordBoundaries` reads (`id`, `title`, `htmlContent`,
`pageStart`, `pageEnd` do not influence any claim). -/
structure PdfChapter where
  plainText : List Char
  deriving Repr, DecidableEq

/-- An outline entry with the page number that
`getOutlinePageNumber(pdf, item)` resolves it to (1-based); the PDF
destination lookup itself is external I/O and is modelled by its
result. -/
structure OutlineEntry where
  pageNum : Nat
  deriving Repr, DecidableEq

/-- Models the `for` loop of `buildChaptersFromOutline`
(`file-parsers.js:146-169`): entry `i` covers
`pageTexts.slice(pageNum - 1, nextPageNum - 1)`, where `nextPageNum` is
the next entry's page or `pageTexts.length + 1` for the last entry. -/
def outlineChapters (pageTexts : List (List Char)) : List OutlineEntry → List PdfChapter
  | [] => []
  | [o] =>
    [⟨joinNN (jsSlice pageTexts (o.pageNum - 1) (pageTexts.length + 1 - 1))⟩]
  | o :: o2 :: rest =>
    ⟨joinNN (jsSlice pageTexts (o.pageNum - 1) (o2.pageNum - 1))⟩
      :: outlineChapters pageTexts (o2 :: rest)

/-- Models `buildChaptersFromOutline` (`file-parsers.js:124-172`): a
synthetic "Front Matter" chapter for the pages before the first outline
entry, then one chapter per outline entry. -/
def buildChaptersFromOutline (outline : List OutlineEntry)
    (pageTexts : List (List Char)) : List PdfChapter :=
  match outline with
  | [] => []
  | o :: rest =>
    let frontMatter : List PdfChapter :=
      if 1 < o.pageNum then [⟨joinNN (jsSlice pageTexts 0 (o.pageNum - 1))⟩] else []
    frontMatter ++ outlineChapters pageTexts (o :: rest)

/-- Models `buildPageBasedChapters` (`file-parsers.js:198-227`): group
the pages into chunks of
`Math.ceil(len / Math.max(1, Math.floor(len / 10)))` pages. -/
def buildPageBasedChapters (pageTexts : List (List Char)) : List PdfChapter :=
  let len := pageTexts.length
  let chunkSize := (len + max 1 (len / 10) - 1) / max 1 (len / 10)
  (pageTexts.toChunks chunkSize).map (fun chunk => ⟨joinNN chunk⟩)

/-- Models `calculateWordBoundaries` (`file-parsers.js:232-252`): fold a
running word offset over the chapters, counting each chapter's words by
an independent `parseText(chapter.plainText)`.  (The source function
also receives the global `words` array but never reads it.) -/
def calculateWordBoundaries (chapters : List PdfChapter) (acc : Nat) : List Chapter :=
  match chapters with
  | [] => []
  | c :: rest =>
    let n := (parseText c.plainText).length
    ⟨acc, acc + n, n⟩ :: calculateWordBoundaries rest (acc + n)

/-- Models the structuring tail of `parsePDFWithStructure`
(`file-parsers.js:88-118`): build chapters from the outline when one
exists (else page-based), build the global word stream from
`pageTexts.join('\n\n')`, and attach word boundaries.  Returns the
global `words` array and the chapters' boundary data. -/
def parsePDFStructure (outline : List OutlineEntry)
    (pageTexts : List (List Char)) : List (List Char) × List Chapter :=
  let chapters :=
    if outline ≠ [] then buildChaptersFromOutline outline pageTexts
    else buildPageBasedChapters pageTexts
  let fullText := joinNN pageTexts
  let words := parseText fullText
  (words, calculateWordBoundaries chapters 0)

/-! ### Document structurer, EPUB path (`epub-structure-parser.js`) -/

/-- A chapter as fed into `buildWordBoundaries`: its plain text and its
chapter-relative image markers. -/
structure EpubChapterIn where
  plainText : List Char
  images : List ImageMarker
  deriving Repr, DecidableEq

/-- Models `buildWordBoundaries` (`epub-structure-parser.js:617-653`):
concatenate each chapter's `parseText(chapter.plainText)` words into the
global array, recording `[start, end)` boundaries from the running
offset and shifting image positions by the chapter start. -/
def buildWordBoundariesGo (chapters : List EpubChapterIn) (acc : Nat) :
    List (List Char) × List Chapter × List ImageMarker :=
  match chapters with
  | [] => ([], [], [])
  | c :: rest =>
    let chapterWords := parseText c.plainText
    let n := chapterWords.length
    let globalImages := c.images.map (fun img =>
      { img with wordPosition := acc + img.wordPosition })
    let (ws, chs, imgs) := buildWordBoundariesGo rest (acc + n)
    (chapterWords ++ ws, ⟨acc, acc + n, n⟩ :: chs, globalImages ++ imgs)

/-- `buildWordBoundaries` proper: the loop starts with
`currentWordIndex = 0` and `allWords = []`. -/
def buildWordBoundaries (chapters : List EpubChapterIn) :
    List (List Char) × List Chapter × List ImageMarker :=
  buildWordBoundariesGo chapters 0

/-! ### Session store (`progress-storage.js`, `indexed-db-storage.js`)

The small synchronous tier (`localStorage`) is modelled as a key-value
map together with a behaviour function `beh` deciding whether a given
`setItem(key, value)` succeeds or throws, and with which error — this
captures quota errors (`QuotaExceededError` / code 22) as well as
disabled storage.  The large asynchronous tier (IndexedDB) stores the
session object under a single fixed key and is modelled by an
`Option σ` slot (`saveSessionToIndexedDB` also stamps a `savedAt`
wall-clock field, which is outside the model).  The session payload type
`σ` is abstract; `serialize` models `JSON.stringify` of the persisted
record and `deserialize` models `JSON.parse` (returning `none` for a
corrupt record). -/

/-- The classified errors `saveSession` distinguishes in its `catch`
(`progress-storage.js:104`): a quota error
(`error.name === 'QuotaExceededError' || error.code === 22`) or any
other storage exception. -/
inductive JsErr
  | quotaExceeded
  | otherError
  deriving Repr, DecidableEq

/-- Behaviour of `localStorage.setItem`: `none` = success,
`some e` = the call throws `e`. -/
def SmallBehavior : Type := String → String → Option JsErr

/-- The two storage tiers' contents. -/
structure StorageState (σ : Type) where
  localMap : String → Option String
  idbSession : Option σ

/-- `STORAGE_KEY` (`progress-storage.js:12`). -/
def storageKey : String := "rsvp-reading-session"

/-- `USE_INDEXEDDB_KEY` (`progress-storage.js:13`). -/
def useIndexedDbKey : String := "rsvp-use-indexeddb"

/-- The probe key of the availability test (`progress-storage.js:41`). -/
def testKey : String := "__localStorage_test__"

/-- `localStorage.setItem(k, v)` under behaviour `beh`. -/
def smallPut {σ : Type} (beh : SmallBehavior) (st : StorageState σ)
    (k v : String) : Except JsErr (StorageState σ) :=
  match beh k v with
  | some e => .error e
  | none =>
    .ok { st with localMap := fun k' => if k' = k then some v else st.localMap k' }

/-- `localStorage.removeItem(k)`. -/
def smallRemove {σ : Type} (st : StorageState σ) (k : String) : StorageState σ :=
  { st with localMap := fun k' => if k' = k then none else st.localMap k' }

/-- Models the success path of `saveSessionToIndexedDB`
(`indexed-db-storage.js:34-59`): store the session object under the
fixed key and resolve `true`. -/
def saveSessionToIndexedDB {σ : Type} (st : StorageState σ) (session : σ) :
    Bool × StorageState σ :=
  (true, { st with idbSession := some session })

/-- Models `loadSessionFromIndexedDB` (`indexed-db-storage.js:65-91`):
return the stored session, or `null`. -/
def loadSessionFromIndexedDB {σ : Type} (st : StorageState σ) : Option σ :=
  st.idbSession

/-- Models `saveSession` (`progress-storage.js:28-112`) in source
order: (1) if the `USE_INDEXEDDB_KEY` flag is set, save to IndexedDB;
(2) availability probe of `localStorage` — on throw set the flag and
save to IndexedDB; (3) serialize; over the 2MB threshold
(`sizeInMB > 2`, i.e. more than `2 * 1024 * 1024` bytes) set the flag
and save to IndexedDB; (4) `setItem` of the payload — on quota error set
the flag and retry via IndexedDB, on any other error report `false`.
An uncaught throw while persisting the flag itself propagates
(`Except.error`), as in the source. -/
def saveSession {σ : Type} (beh : SmallBehavior) (serialize : σ → String)
    (st : StorageState σ) (session : σ) : Except JsErr (Bool × StorageState σ) :=
  if st.localMap useIndexedDbKey = some "true" then
    .ok (saveSessionToIndexedDB st session)
  else
    match smallPut beh st testKey "test" with
    | .error _ =>
      (smallPut beh st useIndexedDbKey "true").map
        (fun st1 => saveSessionToIndexedDB st1 session)
    | .ok st1 =>
      let st2 := smallRemove st1 testKey
      let serialized := serialize session
      if 2 * 1024 * 1024 < serialized.length then
        (smallPut beh st2 useIndexedDbKey "true").map
          (fun st3 => saveSessionToIndexedDB st3 session)
      else
        match smallPut beh st2 storageKey serialized with
        | .ok st3 => .ok (true, st3)
        | .error e =>
          if e = .quotaExceeded then
            (smallPut beh st2 useIndexedDbKey "true").map
              (fun st3 => saveSessionToIndexedDB st3 session)
          else .ok (false, st2)

/-- Models `loadSession` (`progress-storage.js:118-142`).  The second
component records whether the small tier was probed for the session
record (`localStorage.getItem(STORAGE_KEY)`): with the flag set the
source goes straight to `loadSessionFromIndexedDB` without that read.
A missing or corrupt (`JSON.parse` failure) record falls back to
IndexedDB. -/
def loadSession {σ : Type} (deserialize : String → Option σ)
    (st : StorageState σ) : Option σ × Bool :=
  if st.localMap useIndexedDbKey = some "true" then
    (loadSessionFromIndexedDB st, false)
  else
    match st.localMap storageKey with
    | none => (loadSessionFromIndexedDB st, true)
    | some data =>
      match deserialize data with
      | some session => (some session, true)
      | none => (loadSessionFromIndexedDB st, true)

/-! ### Playback orchestrator (`App.svelte`)

The ambient component state of `App.svelte` is modelled as an explicit
record.  Presentation-only fields (`wordOpacity` and the fade timer,
`showSettings`, `showTOC`, auto-save and logging) are omitted: no claim
mentions them.  `stepTimerPending` records whether the synchronous step
left a timer pending that will continue playback (the `setTimeout` of
`scheduleNextWord`, of the periodic pause, or of an image display). -/

/-- `readingMode` (`'rsvp' | 'reader'`). -/
inductive Mode
  | rsvp
  | reader
  deriving Repr, DecidableEq

/-- The inputs of the playback code that are fixed during a step:
the `words` array, `contentStructure` and the relevant settings. -/
structure PlaybackEnv where
  words : List (List Char)
  contentStructure : Option ContentStructure
  showImagesInRSVP : Bool
  pauseAfterWords : Nat
  deriving Repr, DecidableEq

/-- The mutable component state touched by the playback and
mode-switching code. -/
structure AppState where
  currentWordIndex : Nat
  isPlaying : Bool
  isPaused : Bool
  readingMode : Mode
  currentChapterIndex : Nat
  readerScrollPosition : ℚ
  highlightWordIndex : Option Nat
  isShowingImage : Bool
  progress : ℚ
  stepTimerPending : Bool
  deriving Repr, DecidableEq

/-- The image lookup of `showNextWord` (`App.svelte:150-153`):
`showImagesInRSVP && contentStructure?.images` guards a `find` for a
marker whose `wordPosition` equals `currentWordIndex`. -/
def imageAt (env : PlaybackEnv) (wordIndex : Nat) : Option ImageMarker :=
  if env.showImagesInRSVP then
    match env.contentStructure with
    | some cs => cs.images.find? (fun img => img.wordPosition = wordIndex)
    | none => none
  else none

/-- Models `stop` (`App.svelte:255-267`): clear the playing flags and
any pending timer; `currentWordIndex` is preserved. -/
def stop (st : AppState) : AppState :=
  { st with isPlaying := false, isPaused := false, stepTimerPending := false }

/-- Models `pause` (`App.svelte:234-243`). -/
def pause (st : AppState) : AppState :=
  { st with isPlaying := false, isPaused := true, stepTimerPending := false }

/-- Models `scheduleNextWord` (`App.svelte:217-221`): set the next-step
timer unless playback stopped or the words ran out. -/
def scheduleNextWord (env : PlaybackEnv) (st : AppState) : AppState :=
  if !st.isPlaying || env.words.length ≤ st.currentWordIndex then st
  else { st with stepTimerPending := true }

/-- Models `showImage` (`App.svelte:194-216`): an `unavailable` marker
returns immediately — nothing is advanced and nothing is scheduled —
while an available one pauses on the image and leaves the resume
timeout pending. -/
def showImage (image : ImageMarker) (st : AppState) : AppState :=
  if image.unavailable then st
  else { st with isShowingImage := true, isPaused := true, stepTimerPending := true }

/-- Models `showNextWord` (`App.svelte:143-192`): stop at the end of the
stream; divert to `showImage` when a marker sits at the current index;
pause (with the resume timeout pending) at a periodic-pause boundary;
otherwise advance the index, update `progress` and the reader-mode
highlight, and schedule the next step. -/
def showNextWord (env : PlaybackEnv) (st : AppState) : AppState :=
  if env.words.length ≤ st.currentWordIndex then stop st
  else
    match imageAt env st.currentWordIndex with
    | some image => showImage image st
    | none =>
      if shouldPauseAtWord st.currentWordIndex env.pauseAfterWords then
        { st with isPaused := true, stepTimerPending := true }
      else
        let st1 :=
          { st with
            progress := ((st.currentWordIndex + 1 : ℚ) / env.words.length) * 100,
            currentWordIndex := st.currentWordIndex + 1 }
        let st2 :=
          if st1.readingMode = .reader ∧ env.contentStructure ≠ none then
            { st1 with highlightWordIndex := some st1.currentWordIndex }
          else st1
        scheduleNextWord env st2

/-- Models `start` (`App.svelte:223-232`): a no-op on an empty word
stream, otherwise raise the playing flags and take the first step
synchronously via `showNextWord`. -/
def start (env : PlaybackEnv) (st : AppState) : AppState :=
  if env.words.length = 0 then st
  else showNextWord env { st with isPlaying := true, isPaused := false }

/-- Models `handleReaderScroll` (`App.svelte:330-338`): record the
scroll percentage; nothing else changes. -/
def handleReaderScroll (st : AppState) (percentage : ℚ) : AppState :=
  { st with readerScrollPosition := percentage }

/-- Models `switchReadingMode` (`App.svelte:279-312`): no-op on the same
mode or when switching to reader without structure; pause playback;
rsvp→reader derives chapter, scroll percentage and highlight from
`currentWordIndex`; reader→rsvp recomputes `progress` and clears the
highlight; switching to rsvp then auto-plays via `start`. -/
def switchReadingMode (env : PlaybackEnv) (st : AppState) (newMode : Mode) : AppState :=
  if newMode = st.readingMode then st
  else if env.contentStructure = none ∧ newMode = .reader then st
  else
    let st1 := if st.isPlaying then pause st else st
    let st2 :=
      if st1.readingMode = .rsvp ∧ newMode = .reader then
        match env.contentStructure with
        | some cs =>
          let ci := getChapterAtWordIndex cs (st1.currentWordIndex : Int)
          let scroll :=
            match cs.chapters[ci]? with
            | some chapter => getScrollPercentageInChapter chapter (st1.currentWordIndex : Int)
            | none => 0
          { st1 with
            currentChapterIndex := ci,
            readerScrollPosition := scroll,
            highlightWordIndex := some st1.currentWordIndex }
        | none => st1
      else if st1.readingMode = .reader ∧ newMode = .rsvp then
        { st1 with
          progress := ((st1.currentWordIndex : ℚ) / env.words.length) * 100,
          highlightWordIndex := none }
      else st1
    let st3 := { st2 with readingMode := newMode }
    if newMode = .rsvp then start env st3 else st3

/-- The adjacency relation of the no-double-break invariant: two
neighbouring tokens are never both the break token. -/
def NotBothBreak (a b : List Char) : Prop := ¬(a = breakTok ∧ b = breakTok)

/-- The invariant the `parseText` line loop maintains: no two adjacent
break tokens, and the accumulated array never ends in a break token. -/
def BreakInv (ws : List (List Char)) : Prop :=
  List.Chain' NotBothBreak ws ∧ ∀ x, ws.getLast? = some x → x ≠ breakTok

/-- The chapter intervals, taken in order starting at `acc`, are
contiguous (`start = acc`, `end = start + wordCount`) and end exactly at
`total`: the partition property of §8 of the specification. -/
def IntervalsPartition : Nat → List Chapter → Nat → Prop
  | acc, [], total => acc = total
  | acc, ch :: rest, total =>
    ch.startWordIndex = acc ∧ ch.endWordIndex = acc + ch.wordCount ∧
      IntervalsPartition (acc + ch.wordCount) rest total

/-! ### Spec-side definitions, for refinement-style comparison -/

/-- The ORP threshold table exactly as the specification words it:
letter-count ≤1→0, ≤3→0, ≤5→1, ≤9→2, ≤11→3, ≤14→4, ≤17→5, else→6. -/
def orpThresholdTable (letterCount : Nat) : Nat :=
  if letterCount ≤ 1 then 0
  else if letterCount ≤ 3 then 0
  else if letterCount ≤ 5 then 1
  else if letterCount ≤ 9 then 2
  else if letterCount ≤ 11 then 3
  else if letterCount ≤ 14 then 4
  else if letterCount ≤ 17 then 5
  else 6

end RSVP

namespace RSVP

/-! ## Helper lemmas -/

/-- An element in a list's `getLast?` is in the list. -/
theorem mem_of_getLast?_eq {α : Type} {l : List α} {c : α} (h : l.getLast? = some c) :
    c ∈ l := by
  obtain ⟨hne, rfl⟩ := List.mem_getLast?_eq_getLast h
  exact List.getLast_mem hne

/-- A letter differs from any non-letter character. -/
theorem letter_ne {c p : Char} (h : isLetterChar c = true)
    (hp : isLetterChar p = false) : c ≠ p := by
  intro e
  rw [e, hp] at h
  exact Bool.false_ne_true h

/-- A word made of letters does not end in sentence punctuation. -/
theorem endsInSentencePunct_of_letters {w : List Char}
    (h : ∀ c ∈ w, isLetterChar c = true) : endsInSentencePunct w = false := by
  unfold endsInSentencePunct
  cases hgl : w.getLast? with
  | none => rfl
  | some c =>
    have hc := h c (mem_of_getLast?_eq hgl)
    have h1 : c ≠ '.' := letter_ne hc (by decide)
    have h2 : c ≠ '!' := letter_ne hc (by decide)
    have h3 : c ≠ '?' := letter_ne hc (by decide)
    have h4 : c ≠ ';' := letter_ne hc (by decide)
    have h5 : c ≠ ':' := letter_ne hc (by decide)
    simp [h1, h2, h3, h4, h5]

/-- Evaluation of `getWordDelay` on a plain word (all letters, hence no
marker prefix, no break token, no trailing punctuation): only the
long-word factor remains. -/
theorem getWordDelay_letters {w : List Char} (wpm : ℚ) (pp : Bool)
    (pm m lb : ℚ) (hne : w ≠ []) (hw : ∀ c ∈ w, isLetterChar c = true)
    (hwpm : 0 < wpm) :
    getWordDelay w wpm pp pm m lb =
      if 0 < m ∧ 12 ≤ w.length then
        60000 / wpm * (1 + m / 100 * ((w.length : ℚ) - 12))
      else 60000 / wpm := by
  obtain ⟨c, cs, rfl⟩ := List.exists_cons_of_ne_nil hne
  have hc : isLetterChar c = true := hw c (List.mem_cons_self c cs)
  have hcm : c ≠ '⟩' := letter_ne hc (by decide)
  have hbt : c :: cs ≠ breakTok := by
    intro e
    have : c = '\n' := (List.cons.injEq _ _ _ _).mp e |>.1
    exact letter_ne hc (by decide) this
  have hhead : ¬((c :: cs).head? = some '⟩') := by
    simp only [List.head?_cons, Option.some.injEq]
    exact hcm
  have hstrip : stripMarker (c :: cs) = c :: cs := by
    simp only [stripMarker, if_neg hhead]
  have hpunct : endsInSentencePunct (c :: cs) = false :=
    endsInSentencePunct_of_letters hw
  have hcomma : ¬((c :: cs).getLast? = some ',') := by
    intro e
    exact letter_ne (hw _ (mem_of_getLast?_eq e)) (by decide) rfl
  rw [getWordDelay]
  rw [if_neg (by exact List.cons_ne_nil c cs), if_neg (not_le.mpr hwpm)]
  simp only [if_neg hbt, if_neg hhead, hstrip, hpunct]
  simp [hcomma]

/-- Every word produced by the `splitWSGo` loop is non-empty and made
of non-whitespace characters, provided the running accumulator is. -/
theorem splitWSGo_mem : ∀ (l acc : List Char), (∀ c ∈ acc, isWs c = false) →
    ∀ w ∈ splitWSGo l acc, w ≠ [] ∧ ∀ c ∈ w, isWs c = false := by
  intro l
  induction l with
  | nil =>
    intro acc hacc w hw
    rw [splitWSGo] at hw
    by_cases ha : acc = []
    · rw [if_pos ha] at hw
      exact absurd hw (List.not_mem_nil w)
    · rw [if_neg ha] at hw
      obtain rfl := List.mem_singleton.mp hw
      refine ⟨fun e => ha (List.reverse_eq_nil_iff.mp e), fun c hc => ?_⟩
      exact hacc c (List.mem_reverse.mp hc)
  | cons x xs ih =>
    intro acc hacc w hw
    rw [splitWSGo] at hw
    by_cases hx : isWs x
    · rw [if_pos hx] at hw
      by_cases ha : acc = []
      · rw [if_pos ha] at hw
        exact ih [] (fun c hc => absurd hc (List.not_mem_nil c)) w hw
      · rw [if_neg ha] at hw
        rcases List.mem_cons.mp hw with hw1 | hw2
        · subst hw1
          refine ⟨fun e => ha (List.reverse_eq_nil_iff.mp e), fun c hc => ?_⟩
          exact hacc c (List.mem_reverse.mp hc)
        · exact ih [] (fun c hc => absurd hc (List.not_mem_nil c)) w hw2
    · rw [if_neg hx] at hw
      refine ih (x :: acc) (fun c hc => ?_) w hw
      rcases List.mem_cons.mp hc with rfl | hc2
      · exact Bool.of_not_eq_true hx
      · exact hacc c hc2

/-- Every token of `splitWS` is non-empty and whitespace-free. -/
theorem splitWS_mem {l w : List Char} (hw : w ∈ splitWS l) :
    w ≠ [] ∧ ∀ c ∈ w, isWs c = false :=
  splitWSGo_mem l [] (fun c hc => absurd hc (List.not_mem_nil c)) w hw

/-- No token of `splitWS` is the paragraph-break token: real tokens
contain no whitespace, while the break token is the newline. -/
theorem splitWS_ne_breakTok {l w : List Char} (hw : w ∈ splitWS l) :
    w ≠ breakTok := by
  intro e
  obtain ⟨-, hchars⟩ := splitWS_mem hw
  have : isWs '\n' = false := by
    rw [e] at hchars
    exact hchars '\n' (List.mem_singleton.mpr rfl)
  exact absurd this (by decide)

/-- No token of `markFirst` applied to `splitWS` output is the break
token: the marked head starts with `'⟩'` and the rest are real
tokens. -/
theorem markFirst_ne_breakTok {l : List Char} {x : List Char}
    (hx : x ∈ markFirst (splitWS l)) : x ≠ breakTok := by
  cases hsp : splitWS l with
  | nil => rw [hsp] at hx; exact absurd hx (List.not_mem_nil x)
  | cons w ws =>
    rw [hsp, markFirst] at hx
    rcases List.mem_cons.mp hx with rfl | hx2
    · intro e
      have : '⟩' = '\n' := (List.cons.injEq _ _ _ _).mp e |>.1
      exact absurd this (by decide)
    · exact splitWS_ne_breakTok (by rw [hsp]; exact List.mem_cons_of_mem w hx2)

/-- A list of non-break tokens trivially satisfies the adjacency
invariant. -/
theorem chain'_notBothBreak_of_no_break {l : List (List Char)}
    (h : ∀ x ∈ l, x ≠ breakTok) : List.Chain' NotBothBreak l := by
  induction l with
  | nil => exact List.chain'_nil
  | cons a t ih =>
    rw [List.chain'_cons']
    refine ⟨fun y _ => fun hc => ?_, ih (fun x hx => h x (List.mem_cons_of_mem a hx))⟩
    exact h a (List.mem_cons_self a t) hc.1

/-- `processLine` preserves the no-double-break invariant: a blank line
changes nothing, the first paragraph appends only real tokens, and a
later paragraph appends one break token followed immediately by the
marked (hence non-break) first word of the paragraph. -/
theorem processLine_breakInv {ws : List (List Char)} {rawLine : List Char}
    (h : BreakInv ws) : BreakInv (processLine ws rawLine) := by
  rw [processLine]
  by_cases ht : jsTrim rawLine = []
  · rw [if_pos ht]; exact h
  · rw [if_neg ht]
    by_cases hc : ws ≠ [] ∧ splitWS (jsTrim rawLine) ≠ []
    · rw [if_pos hc]
      obtain ⟨hws, hlw⟩ := hc
      obtain ⟨w0, ws0, hsp⟩ := List.exists_cons_of_ne_nil hlw
      have hmf : ∀ x ∈ markFirst (splitWS (jsTrim rawLine)), x ≠ breakTok :=
        fun x hx => markFirst_ne_breakTok hx
      have hmfne : markFirst (splitWS (jsTrim rawLine)) ≠ [] := by
        rw [hsp, markFirst]
        exact List.cons_ne_nil _ _
      constructor
      · rw [List.chain'_append]
        refine ⟨h.1, ?_, ?_⟩
        · rw [List.chain'_cons']
          refine ⟨fun y hy => fun hcon => ?_, chain'_notBothBreak_of_no_break hmf⟩
          have hymem : y ∈ markFirst (splitWS (jsTrim rawLine)) := by
            cases hm : markFirst (splitWS (jsTrim rawLine)) with
            | nil => rw [hm] at hy; exact absurd hy (by simp)
            | cons z zs =>
              rw [hm] at hy
              simp only [List.head?_cons, Option.mem_def, Option.some.injEq] at hy
              rw [← hy]
              exact List.mem_cons_self z zs
          exact hmf y hymem hcon.2
        · intro x hx y hy hcon
          have : x ≠ breakTok := h.2 x (Option.mem_def.mp hx)
          exact this hcon.1
      · intro x hx
        have hre : ws ++ breakTok :: markFirst (splitWS (jsTrim rawLine)) =
            (ws ++ [breakTok]) ++ markFirst (splitWS (jsTrim rawLine)) := by
          rw [List.append_assoc]
          rfl
        rw [hre, List.getLast?_append_of_ne_nil _ hmfne] at hx
        exact hmf x (mem_of_getLast?_eq hx)
    · rw [if_neg hc]
      rcases Decidable.not_and_iff_or_not.mp hc with hws | hlw
      · have hws' : ws = [] := Decidable.not_not.mp hws
        subst hws'
        rw [List.nil_append]
        have hall : ∀ x ∈ splitWS (jsTrim rawLine), x ≠ breakTok :=
          fun x hx => splitWS_ne_breakTok hx
        exact ⟨chain'_notBothBreak_of_no_break hall,
          fun x hx => hall x (mem_of_getLast?_eq hx)⟩
      · have hlw' : splitWS (jsTrim rawLine) = [] := Decidable.not_not.mp hlw
        rw [hlw', List.append_nil]
        exact h

/-- The line fold preserves the invariant from any starting array. -/
theorem parseTextLines_breakInv (lines : List (List Char)) :
    ∀ ws, BreakInv ws → BreakInv (lines.foldl processLine ws) := by
  induction lines with
  | nil => intro ws h; exact h
  | cons l rest ih =>
    intro ws h
    rw [List.foldl_cons]
    exact ih _ (processLine_breakInv h)

/-- A blank line (one that trims to nothing) leaves the accumulated
words unchanged. -/
theorem processLine_blank {ws : List (List Char)} {e : List Char}
    (h : jsTrim e = []) : processLine ws e = ws := by
  rw [processLine, if_pos h]

/-- The scan of `getActualORPIndex` only ever returns a position inside
the portion of the word it walks: starting at character index `i`, a
`some j` satisfies `i ≤ j < i + cs.length`. -/
theorem orpScan_bounds (cs : List Char) :
    ∀ orp lc i j, orpScan cs orp lc i = some j → i ≤ j ∧ j < i + cs.length := by
  induction cs with
  | nil => intro orp lc i j h; exact absurd h (by simp [orpScan])
  | cons c rest ih =>
    intro orp lc i j h
    rw [orpScan] at h
    by_cases hc : isLetterChar c = true
    · rw [if_pos hc] at h
      by_cases heq : lc = orp
      · rw [if_pos heq] at h
        obtain rfl : i = j := Option.some.inj h
        exact ⟨le_refl i, by rw [List.length_cons]; omega⟩
      · rw [if_neg heq] at h
        obtain ⟨h1, h2⟩ := ih orp (lc + 1) (i + 1) j h
        exact ⟨Nat.le_of_succ_le h1, by rw [List.length_cons]; omega⟩
    · rw [if_neg hc] at h
      obtain ⟨h1, h2⟩ := ih orp lc (i + 1) j h
      exact ⟨Nat.le_of_succ_le h1, by rw [List.length_cons]; omega⟩

/-- The EPUB path does maintain the token-coverage invariant: the
chapters produced by `buildWordBoundariesGo` have word counts summing to
the length of the concatenated global word array, and their intervals
partition the covered index range contiguously.  (Contrast with the PDF
path, where the boundaries are computed against per-chapter re-parses
while the global array is parsed from the joined text.) -/
theorem buildWordBoundariesGo_partition (chapters : List EpubChapterIn) :
    ∀ acc : Nat,
      ((buildWordBoundariesGo chapters acc).2.1.map Chapter.wordCount).sum =
        (buildWordBoundariesGo chapters acc).1.length ∧
      IntervalsPartition acc ((buildWordBoundariesGo chapters acc).2.1)
        (acc + (buildWordBoundariesGo chapters acc).1.length) := by
  induction chapters with
  | nil =>
    intro acc
    simp [buildWordBoundariesGo, IntervalsPartition]
  | cons c rest ih =>
    intro acc
    rcases hrec : buildWordBoundariesGo rest (acc + (parseText c.plainText).length)
      with ⟨ws, chs, imgs⟩
    have heq : buildWordBoundariesGo (c :: rest) acc =
        (parseText c.plainText ++ ws,
          ⟨acc, acc + (parseText c.plainText).length, (parseText c.plainText).length⟩ :: chs,
          c.images.map (fun img => { img with wordPosition := acc + img.wordPosition }) ++ imgs) := by
      simp only [buildWordBoundariesGo, hrec]
    obtain ⟨ih1, ih2⟩ := ih (acc + (parseText c.plainText).length)
    rw [hrec] at ih1 ih2
    rw [heq]
    simp only [List.map_cons, List.sum_cons, List.length_append, IntervalsPartition]
    refine ⟨by rw [ih1], trivial, trivial, ?_⟩
    rw [← Nat.add_assoc]
    exact ih2

/-- `scheduleNextWord` never moves the reading position. -/
theorem scheduleNextWord_currentWordIndex (env : PlaybackEnv) (st : AppState) :
    (scheduleNextWord env st).currentWordIndex = st.currentWordIndex := by
  rw [scheduleNextWord]
  split
  · rfl
  · rfl

/-- `showNextWord` advances the position by exactly one when a word
remains, no image marker sits at the position, and no periodic pause
triggers. -/
theorem showNextWord_advances (env : PlaybackEnv) (st : AppState)
    (hlt : st.currentWordIndex < env.words.length)
    (himg : imageAt env st.currentWordIndex = none)
    (hsp : shouldPauseAtWord st.currentWordIndex env.pauseAfterWords = false) :
    (showNextWord env st).currentWordIndex = st.currentWordIndex + 1 := by
  rw [showNextWord, if_neg (not_le.mpr hlt), himg]
  simp only [hsp, Bool.false_eq_true, if_false]
  rw [scheduleNextWord_currentWordIndex]
  split
  · rfl
  · rfl

/-- Switching `rsvp → reader` (with structure present) keeps the
position, sets reader mode, and stops playback. -/
theorem switchReadingMode_to_reader (env : PlaybackEnv) (st : AppState)
    (cs : ContentStructure) (h : st.readingMode = .rsvp)
    (hcs : env.contentStructure = some cs) :
    (switchReadingMode env st .reader).currentWordIndex = st.currentWordIndex ∧
    (switchReadingMode env st .reader).readingMode = .reader ∧
    (switchReadingMode env st .reader).isPlaying = false := by
  rw [switchReadingMode]
  rw [if_neg (by rw [h]; exact fun e => Mode.noConfusion e)]
  rw [if_neg (by rw [hcs]; exact fun e => Option.noConfusion e.1)]
  by_cases hp : st.isPlaying
  · simp only [if_pos hp, pause, h, hcs]
    simp
  · simp only [if_neg hp, h, hcs]
    simp only [Bool.not_eq_true] at hp
    simp [hp]

/-- Switching `reader → rsvp` from a non-playing reader state
auto-plays and therefore lands one past the stored position (under the
same no-image/no-pause side conditions). -/
theorem switchReadingMode_to_rsvp_advances (env : PlaybackEnv) (q : AppState)
    (hmode : q.readingMode = .reader) (hplay : q.isPlaying = false)
    (hlt : q.currentWordIndex < env.words.length)
    (himg : imageAt env q.currentWordIndex = none)
    (hsp : shouldPauseAtWord q.currentWordIndex env.pauseAfterWords = false) :
    (switchReadingMode env q .rsvp).currentWordIndex = q.currentWordIndex + 1 := by
  have hq1 : (if q.isPlaying = true then pause q else q) = q := by
    rw [hplay]
    simp
  rw [switchReadingMode]
  rw [if_neg (by rw [hmode]; exact fun e => Mode.noConfusion e)]
  rw [if_neg (fun e => Mode.noConfusion e.2)]
  simp only [hq1, hmode]
  simp only [if_true, if_false, and_true, and_false, eq_self_iff_true, reduceCtorEq, ite_true,
    ite_false, if_neg (fun e => Mode.noConfusion (e : Mode.reader = Mode.rsvp))]
  rw [start, if_neg (by omega)]
  exact showNextWord_advances env _ hlt himg hsp

/-! ## Claim theorems -/

/-- Claim C3: when the small tier rejects the payload with a quota
error, or the serialized payload exceeds the fixed
`2 * 1024 * 1024`-byte threshold, `saveSession` retries the same session
against the large tier and persists the single `USE_INDEXEDDB_KEY`
flag; a subsequent `loadSession` on the resulting state reads the large
tier directly — the same session comes back and the small tier is never
probed for the session record. -/
theorem saveSession_promotes_and_load_skips_small {σ : Type}
    (beh : SmallBehavior) (serialize : σ → String) (deserialize : String → Option σ)
    (st : StorageState σ) (s : σ)
    (hflag : ¬st.localMap useIndexedDbKey = some "true")
    (htest : beh testKey "test" = none)
    (hflagput : beh useIndexedDbKey "true" = none)
    (hcap : beh storageKey (serialize s) = some .quotaExceeded ∨
      2 * 1024 * 1024 < (serialize s).length) :
    ∃ st', saveSession beh serialize st s = .ok (true, st') ∧
      st'.localMap useIndexedDbKey = some "true" ∧
      st'.idbSession = some s ∧
      loadSession deserialize st' = (some s, false) := by
  rw [saveSession, if_neg hflag]
  simp only [smallPut, smallRemove, saveSessionToIndexedDB, htest, Except.map]
  by_cases hsz : 2 * 1024 * 1024 < (serialize s).length
  · rw [if_pos hsz]
    simp only [hflagput]
    refine ⟨_, rfl, by simp, rfl, ?_⟩
    rw [loadSession, if_pos (by simp)]
    rfl
  · rw [if_neg hsz]
    have hquota : beh storageKey (serialize s) = some .quotaExceeded := by
      rcases hcap with h | h
      · exact h
      · exact absurd h hsz
    simp only [hquota, hflagput]
    rw [if_true]
    refine ⟨_, rfl, by simp, rfl, ?_⟩
    rw [loadSession, if_pos (by simp)]
    rfl

set_option maxRecDepth 4000

/-- A witness for `saveSession_promotes_and_load_skips_small`: a small
tier with a 100-byte quota on every key, an empty initial state, and a
200-byte session payload. -/
theorem saveSession_promotes_witness :
    ∃ st' : StorageState String,
      saveSession (fun _ v => if 100 < v.length then some .quotaExceeded else none)
          (fun s => s) ⟨fun _ => none, none⟩ (String.mk (List.replicate 200 'x')) =
        .ok (true, st') ∧
      st'.localMap useIndexedDbKey = some "true" ∧
      st'.idbSession = some (String.mk (List.replicate 200 'x')) ∧
      loadSession (fun s => some s) st' = (some (String.mk (List.replicate 200 'x')), false) :=
  saveSession_promotes_and_load_skips_small
    (fun _ v => if 100 < v.length then some .quotaExceeded else none)
    (fun s => s) (fun s => some s) ⟨fun _ => none, none⟩ _
    (by simp) (by decide) (by decide) (Or.inl (by decide))

/-- Claim C10: two paragraphs separated by three consecutive blank
lines produce exactly one break token between them, and in general the
output of `parseText` never contains two adjacent break tokens. -/
theorem parseText_single_break_no_adjacent :
    (∀ l1 e1 e2 e3 l2 : List Char,
      jsTrim e1 = [] → jsTrim e2 = [] → jsTrim e3 = [] →
      splitWS (jsTrim l1) ≠ [] → splitWS (jsTrim l2) ≠ [] →
      (parseTextLines [l1, e1, e2, e3, l2]).count breakTok = 1) ∧
    ∀ text : List Char, List.Chain' NotBothBreak (parseText text) := by
  constructor
  · intro l1 e1 e2 e3 l2 he1 he2 he3 hw1 hw2
    have ht1 : jsTrim l1 ≠ [] := by
      intro e
      apply hw1
      rw [e]
      rfl
    have ht2 : jsTrim l2 ≠ [] := by
      intro e
      apply hw2
      rw [e]
      rfl
    have h1 : processLine [] l1 = splitWS (jsTrim l1) := by
      rw [processLine, if_neg ht1, if_neg (by simp), List.nil_append]
    have h5 : processLine (splitWS (jsTrim l1)) l2 =
        splitWS (jsTrim l1) ++ breakTok :: markFirst (splitWS (jsTrim l2)) := by
      rw [processLine, if_neg ht2, if_pos ⟨hw1, hw2⟩]
    rw [parseTextLines, List.foldl_cons, List.foldl_cons, List.foldl_cons,
      List.foldl_cons, List.foldl_cons, List.foldl_nil, h1,
      processLine_blank he1, processLine_blank he2, processLine_blank he3, h5,
      List.count_append, List.count_cons_self]
    have hz1 : (splitWS (jsTrim l1)).count breakTok = 0 :=
      List.count_eq_zero.mpr (fun hmem => splitWS_ne_breakTok hmem rfl)
    have hz2 : (markFirst (splitWS (jsTrim l2))).count breakTok = 0 :=
      List.count_eq_zero.mpr (fun hmem => markFirst_ne_breakTok hmem rfl)
    rw [hz1, hz2]
  · intro text
    exact (parseTextLines_breakInv (text.splitOn '\n') []
      ⟨List.chain'_nil, fun x hx => absurd hx (by simp)⟩).1

/-- A witness for `parseText_single_break_no_adjacent`: the text
`"ab\n\n\n\ncd"` (three blank lines between two one-word paragraphs)
yields exactly one break token, and its parse has no adjacent break
pair. -/
theorem parseText_single_break_no_adjacent_witness :
    (parseTextLines [['a','b'], [], [], [], ['c','d']]).count breakTok = 1 ∧
      List.Chain' NotBothBreak (parseText "ab\n\n\n\ncd".data) :=
  ⟨parseText_single_break_no_adjacent.1 ['a','b'] [] [] [] ['c','d']
      (by decide) (by decide) (by decide) (by decide) (by decide),
    parseText_single_break_no_adjacent.2 "ab\n\n\n\ncd".data⟩

/-- Claim C1 (code_bug evaluation): on a PDF with two outline chapters
resolving to pages 1 and 2 over page texts `"a"` and `"b"`, the global
word stream produced by `parsePDFWithStructure` has 3 tokens
(`"a"`, the break token inserted at the page join of
`pageTexts.join('\n\n')`, and `"⟩b"`), while the chapters' boundaries
are `[0,1)` and `[1,2)`: the word counts sum to 2 ≠ 3, the last chapter
ends at 2, and global index 2 is covered by no chapter — the claimed
partition of `[0, totalWordCount)` fails on the PDF path. -/
theorem pdf_boundaries_leave_gap :
    (parsePDFStructure [⟨1⟩, ⟨2⟩] [['a'], ['b']]).1.length = 3 ∧
    ((parsePDFStructure [⟨1⟩, ⟨2⟩] [['a'], ['b']]).2.map Chapter.wordCount).sum = 2 ∧
    ((parsePDFStructure [⟨1⟩, ⟨2⟩] [['a'], ['b']]).2.map Chapter.endWordIndex).getLast? = some 2 := by
  decide

/-- Claim C2 (code_bug evaluation): with an image marker flagged
unavailable at the current word index, `showNextWord` is a no-op — the
early return in `showImage` neither advances `currentWordIndex` nor
schedules any timer, so playback stalls at that index instead of
skipping the marker with normal step timing. -/
theorem showNextWord_stalls_on_unavailable_image :
    showNextWord
      ⟨[['a'], ['b'], ['c']], some ⟨[⟨0, 3, 3⟩], [⟨1, true⟩]⟩, true, 0⟩
      ⟨1, true, false, .rsvp, 0, 0, none, false, 0, false⟩ =
    ⟨1, true, false, .rsvp, 0, 0, none, false, 0, false⟩ := by
  decide

/-- Claim C4 counterexample: starting paused in rsvp mode at word
index 1 of a 3-word structured document, switching to reader mode and
straight back to rsvp leaves `currentWordIndex = 2`, not 1: switching
back auto-starts playback (`start` at `App.svelte:310`), whose first
synchronous step advances the position. -/
theorem switch_mode_roundtrip_moves_index :
    (switchReadingMode ⟨[['a'], ['b'], ['c']], some ⟨[⟨0, 3, 3⟩], []⟩, true, 0⟩
        (switchReadingMode ⟨[['a'], ['b'], ['c']], some ⟨[⟨0, 3, 3⟩], []⟩, true, 0⟩
          ⟨1, false, true, .rsvp, 0, 0, none, false, 0, false⟩ .reader)
        .rsvp).currentWordIndex ≠ 1 ∧
    (switchReadingMode ⟨[['a'], ['b'], ['c']], some ⟨[⟨0, 3, 3⟩], []⟩, true, 0⟩
        (switchReadingMode ⟨[['a'], ['b'], ['c']], some ⟨[⟨0, 3, 3⟩], []⟩, true, 0⟩
          ⟨1, false, true, .rsvp, 0, 0, none, false, 0, false⟩ .reader)
        .rsvp).currentWordIndex = 2 := by
  decide

/-- Claim C4 as amended: the `rsvp → reader` switch itself never moves
`currentWordIndex`, and ordinary scrolling in the paginated view never
moves it; but the `reader → rsvp` switch auto-plays, so the round trip
ends at `currentWordIndex + 1` (in the ordinary case: a word remains,
no image marker at the position, no periodic pause). -/
theorem switch_mode_position_behavior :
    (∀ (env : PlaybackEnv) (st : AppState), st.readingMode = .rsvp →
      (switchReadingMode env st .reader).currentWordIndex = st.currentWordIndex) ∧
    (∀ (st : AppState) (p : ℚ),
      (handleReaderScroll st p).currentWordIndex = st.currentWordIndex) ∧
    (∀ (env : PlaybackEnv) (st : AppState) (cs : ContentStructure),
      st.readingMode = .rsvp → env.contentStructure = some cs →
      st.currentWordIndex < env.words.length →
      imageAt env st.currentWordIndex = none →
      shouldPauseAtWord st.currentWordIndex env.pauseAfterWords = false →
      (switchReadingMode env (switchReadingMode env st .reader) .rsvp).currentWordIndex =
        st.currentWordIndex + 1) := by
  refine ⟨fun env st h => ?_, fun st p => rfl, fun env st cs h hcs hlt himg hsp => ?_⟩
  · cases hcs : env.contentStructure with
    | none =>
      rw [switchReadingMode]
      by_cases h1 : Mode.reader = st.readingMode
      · rw [if_pos h1]
      · rw [if_neg h1, if_pos ⟨hcs, rfl⟩]
    | some cs => exact (switchReadingMode_to_reader env st cs h hcs).1
  · obtain ⟨hidx, hmode1, hplay1⟩ := switchReadingMode_to_reader env st cs h hcs
    rw [switchReadingMode_to_rsvp_advances env _ hmode1 hplay1
      (by rw [hidx]; exact hlt) (by rw [hidx]; exact himg) (by rw [hidx]; exact hsp), hidx]

/-- A witness for `switch_mode_position_behavior` on a 3-word document
with one chapter: the switch to reader keeps index 1, a scroll keeps
index 1, and the round trip ends at index 2. -/
theorem switch_mode_position_behavior_witness :
    (switchReadingMode ⟨[['a'], ['b'], ['c']], some ⟨[⟨0, 3, 3⟩], []⟩, true, 0⟩
      ⟨1, false, true, .rsvp, 0, 0, none, false, 0, false⟩ .reader).currentWordIndex = 1 ∧
    (handleReaderScroll ⟨1, false, true, .reader, 0, 0, none, false, 0, false⟩
      37).currentWordIndex = 1 ∧
    (switchReadingMode ⟨[['a'], ['b'], ['c']], some ⟨[⟨0, 3, 3⟩], []⟩, true, 0⟩
        (switchReadingMode ⟨[['a'], ['b'], ['c']], some ⟨[⟨0, 3, 3⟩], []⟩, true, 0⟩
          ⟨1, false, true, .rsvp, 0, 0, none, false, 0, false⟩ .reader)
        .rsvp).currentWordIndex = 2 :=
  ⟨switch_mode_position_behavior.1 _ _ rfl,
    switch_mode_position_behavior.2.1 _ 37,
    switch_mode_position_behavior.2.2 _ _ ⟨[⟨0, 3, 3⟩], []⟩ rfl rfl
      (by decide) (by decide) (by decide)⟩

/-- Claim C5 counterexample: at `wpm = 300`,
`punctuationMultiplier = 2`, `longWordMultiplier = 50`,
`lineBreakMultiplier = 3`, the delays of an 11-letter and a 12-letter
plain word are both 200ms — the long-word factor
`1 + (m/100) * (len - 12)` is `1` at `len = 12` — so the claimed strict
chain `delay₁₃ > delay₁₂ > delay₁₁` fails between 12 and 11. -/
theorem word_delay_11_12_equal :
    getWordDelay "abcdefghijkl".data 300 true 2 50 3 =
      getWordDelay "abcdefghijk".data 300 true 2 50 3 ∧
    ¬(getWordDelay "abcdefghijkl".data 300 true 2 50 3 >
        getWordDelay "abcdefghijk".data 300 true 2 50 3) := by
  rw [show "abcdefghijkl".data = ['a','b','c','d','e','f','g','h','i','j','k','l'] from rfl,
    show "abcdefghijk".data = ['a','b','c','d','e','f','g','h','i','j','k'] from rfl,
    getWordDelay_letters 300 true 2 50 3 (by decide) (by decide) (by norm_num),
    getWordDelay_letters 300 true 2 50 3 (by decide) (by decide) (by norm_num)]
  norm_num

/-- Claim C6 counterexample: with chapters of 100/150/50 words
(`[0,100)`, `[100,250)`, `[250,300)`), word index 225 lies in
`[100,250)`, so `getChapterAtWordIndex` returns 1, not 2, and the
scroll percentage in the containing chapter is not 50. -/
theorem chapterAt_225_is_not_2 :
    getChapterAtWordIndex ⟨[⟨0, 100, 100⟩, ⟨100, 250, 150⟩, ⟨250, 300, 50⟩], []⟩ 225 ≠ 2 ∧
    getScrollPercentageInChapter ⟨100, 250, 150⟩ 225 ≠ 50 := by
  constructor
  · decide
  · norm_num [getScrollPercentageInChapter]

/-- Claim C6 as amended: word 225 falls in the second chapter (0-based
index 1) at scroll percentage 250/3 ≈ 83.3%; the outputs the claim
states (chapter index 2, 50%) are instead produced at word index 275. -/
theorem chapterAt_and_scroll_values :
    getChapterAtWordIndex ⟨[⟨0, 100, 100⟩, ⟨100, 250, 150⟩, ⟨250, 300, 50⟩], []⟩ 225 = 1 ∧
    getScrollPercentageInChapter ⟨100, 250, 150⟩ 225 = 250 / 3 ∧
    getChapterAtWordIndex ⟨[⟨0, 100, 100⟩, ⟨100, 250, 150⟩, ⟨250, 300, 50⟩], []⟩ 275 = 2 ∧
    getScrollPercentageInChapter ⟨250, 300, 50⟩ 275 = 50 := by
  refine ⟨by decide, ?_, by decide, ?_⟩ <;> norm_num [getScrollPercentageInChapter]

/-- Claim C7: `getORPIndex` equals the specification's threshold table
applied to the count of letters of the marker-stripped word, and the
two scenario values hold: `"reading"` (7 letters) ↦ 2, `"a"` ↦ 0. -/
theorem orp_index_matches_table :
    (∀ w : List Char,
      getORPIndex w = orpThresholdTable ((stripMarker w).filter isLetterChar).length) ∧
    getORPIndex "reading".data = 2 ∧ getORPIndex "a".data = 0 := by
  refine ⟨fun w => ?_, by decide, by decide⟩
  by_cases h : w = []
  · subst h; decide
  · simp only [getORPIndex, orpThresholdTable, if_neg h]

/-- Claim C5 as amended: for fixed `wpm > 0`, any pause flags, and
`longWordMultiplier > 0`, the delay of a 13-letter word is strictly
greater than that of a 12-letter word, but the 12-letter delay EQUALS
the 11-letter delay (the long-word factor `1 + (m/100)·(len-12)` is `1`
at `len = 12`), so strictness only begins at the 13th character. -/
theorem word_delay_gt_at_13_eq_at_12 (wpm pm m lb : ℚ) (pp : Bool)
    (w11 w12 w13 : List Char) (hwpm : 0 < wpm) (hm : 0 < m)
    (h11 : ∀ c ∈ w11, isLetterChar c = true) (l11 : w11.length = 11)
    (h12 : ∀ c ∈ w12, isLetterChar c = true) (l12 : w12.length = 12)
    (h13 : ∀ c ∈ w13, isLetterChar c = true) (l13 : w13.length = 13) :
    getWordDelay w13 wpm pp pm m lb > getWordDelay w12 wpm pp pm m lb ∧
      getWordDelay w12 wpm pp pm m lb = getWordDelay w11 wpm pp pm m lb := by
  have ne11 : w11 ≠ [] := by intro e; rw [e] at l11; exact absurd l11 (by decide)
  have ne12 : w12 ≠ [] := by intro e; rw [e] at l12; exact absurd l12 (by decide)
  have ne13 : w13 ≠ [] := by intro e; rw [e] at l13; exact absurd l13 (by decide)
  rw [getWordDelay_letters wpm pp pm m lb ne13 h13 hwpm,
    getWordDelay_letters wpm pp pm m lb ne12 h12 hwpm,
    getWordDelay_letters wpm pp pm m lb ne11 h11 hwpm, l11, l12, l13]
  rw [if_pos ⟨hm, by norm_num⟩, if_pos ⟨hm, by norm_num⟩, if_neg (by norm_num)]
  have hB : 0 < 60000 / wpm := by positivity
  have hBm : 0 < 60000 / wpm * (m / 100) := by positivity
  constructor
  · push_cast
    nlinarith
  · push_cast
    ring_nf

/-- A witness for `word_delay_gt_at_13_eq_at_12` at `wpm = 300`,
`m = 50` on concrete letter words. -/
theorem word_delay_gt_at_13_eq_at_12_witness :
    getWordDelay ['a','b','c','d','e','f','g','h','i','j','k','l','m'] 300 true 2 50 3 >
      getWordDelay ['a','b','c','d','e','f','g','h','i','j','k','l'] 300 true 2 50 3 ∧
    getWordDelay ['a','b','c','d','e','f','g','h','i','j','k','l'] 300 true 2 50 3 =
      getWordDelay ['a','b','c','d','e','f','g','h','i','j','k'] 300 true 2 50 3 :=
  word_delay_gt_at_13_eq_at_12 300 2 50 3 true _ _ _ (by norm_num) (by norm_num)
    (by decide) (by decide) (by decide) (by decide) (by decide) (by decide)

/-- Claim C8 counterexample: `getWordIndexFromScroll` does not clamp:
at `percent = 100` on the chapter `[100, 250)` it returns 250, the
excluded `endWordIndex` itself. -/
theorem wordIndexFromScroll_returns_end :
    getWordIndexFromScroll ⟨100, 250, 150⟩ 100 = 250 ∧
    ¬getWordIndexFromScroll ⟨100, 250, 150⟩ 100 < 250 := by
  have h : getWordIndexFromScroll ⟨100, 250, 150⟩ 100 = 250 := by
    rw [getWordIndexFromScroll]
    norm_num
  exact ⟨h, by rw [h]; exact lt_irrefl 250⟩

/-- Claim C8 as amended: `getWordIndexFromScroll` is the unclamped
floor-rounded inverse
`startWordIndex + ⌊(end - start) · percent/100⌋` of the scroll mapping;
for in-range input (`0 ≤ percent < 100`) on a non-empty chapter the
result does land in `[start, end)`, but nothing clamps `percent = 100`
(which yields `endWordIndex`) or out-of-range percentages. -/
theorem wordIndexFromScroll_formula_and_in_range_bounds (ch : Chapter) (p : ℚ) :
    getWordIndexFromScroll ch p =
      (ch.startWordIndex : Int) +
        ⌊((ch.endWordIndex : ℚ) - (ch.startWordIndex : ℚ)) * (p / 100)⌋ ∧
    (0 ≤ p → p < 100 → ch.startWordIndex < ch.endWordIndex →
      (ch.startWordIndex : Int) ≤ getWordIndexFromScroll ch p ∧
        getWordIndexFromScroll ch p < (ch.endWordIndex : Int)) := by
  have hform : getWordIndexFromScroll ch p =
      (ch.startWordIndex : Int) +
        ⌊((ch.endWordIndex : ℚ) - (ch.startWordIndex : ℚ)) * (p / 100)⌋ := by
    rw [getWordIndexFromScroll]
    push_cast
    rfl
  refine ⟨hform, fun h0 h100 hlt => ?_⟩
  rw [hform]
  have hcast : (0 : ℚ) < (ch.endWordIndex : ℚ) - (ch.startWordIndex : ℚ) := by
    have := (Nat.cast_lt (α := ℚ)).mpr hlt
    linarith
  constructor
  · have : 0 ≤ ⌊((ch.endWordIndex : ℚ) - (ch.startWordIndex : ℚ)) * (p / 100)⌋ :=
      Int.floor_nonneg.mpr (mul_nonneg hcast.le (by positivity))
    omega
  · have hx : ((ch.endWordIndex : ℚ) - (ch.startWordIndex : ℚ)) * (p / 100) <
        (((ch.endWordIndex : Int) - (ch.startWordIndex : Int) : Int) : ℚ) := by
      push_cast
      have hp1 : p / 100 < 1 := by linarith [(div_lt_one (by norm_num : (0:ℚ) < 100)).mpr h100]
      nlinarith
    have := Int.floor_lt.mpr hx
    omega

/-- A witness for `wordIndexFromScroll_formula_and_in_range_bounds` on
the chapter `[100, 250)` at 50%: the result 175 lies in `[100, 250)`. -/
theorem wordIndexFromScroll_formula_witness :
    getWordIndexFromScroll ⟨100, 250, 150⟩ 50 =
      ((⟨100, 250, 150⟩ : Chapter).startWordIndex : Int) +
        ⌊(((⟨100, 250, 150⟩ : Chapter).endWordIndex : ℚ) -
          ((⟨100, 250, 150⟩ : Chapter).startWordIndex : ℚ)) * (50 / 100)⌋ ∧
    (0 ≤ (50 : ℚ) → (50 : ℚ) < 100 →
      (⟨100, 250, 150⟩ : Chapter).startWordIndex < (⟨100, 250, 150⟩ : Chapter).endWordIndex →
      ((⟨100, 250, 150⟩ : Chapter).startWordIndex : Int) ≤ getWordIndexFromScroll ⟨100, 250, 150⟩ 50 ∧
        getWordIndexFromScroll ⟨100, 250, 150⟩ 50 < ((⟨100, 250, 150⟩ : Chapter).endWordIndex : Int)) :=
  wordIndexFromScroll_formula_and_in_range_bounds ⟨100, 250, 150⟩ 50

/-- Claim C9 as amended: for every word whose marker-stripped form is
non-empty, `getActualORPIndex` returns a character index in
`[0, cleanWord.length)` — the scan hit stays inside the word and the
fallback `min(orpIndex, length - 1)` is non-negative once at least one
character remains.  (The unrestricted claim fails only on the bare
marker `"⟩"`, whose stripped form is empty.) -/
theorem actual_orp_index_in_bounds (w : List Char) (h : stripMarker w ≠ []) :
    0 ≤ getActualORPIndex w ∧ getActualORPIndex w < ((stripMarker w).length : Int) := by
  have hw : w ≠ [] := by
    intro e
    rw [e] at h
    exact h rfl
  rw [getActualORPIndex, if_neg hw]
  have hlen : 1 ≤ (stripMarker w).length := List.length_pos.mpr h
  cases hscan : orpScan (stripMarker w) (getORPIndex (stripMarker w)) 0 0 with
  | some i =>
    obtain ⟨_, h2⟩ := orpScan_bounds (stripMarker w) _ 0 0 i hscan
    simp only [hscan]
    constructor
    · exact Int.ofNat_nonneg i
    · exact_mod_cast by omega
  | none =>
    simp only [hscan]
    constructor
    · exact le_min (Int.ofNat_nonneg _) (by omega)
    · calc min ((getORPIndex (stripMarker w) : Nat) : Int) (((stripMarker w).length : Int) - 1) ≤
            ((stripMarker w).length : Int) - 1 := min_le_right _ _
        _ < ((stripMarker w).length : Int) := by omega

/-- A witness for `actual_orp_index_in_bounds` at the word `"reading"`:
the returned index is within `[0, 7)`. -/
theorem actual_orp_index_in_bounds_witness :
    0 ≤ getActualORPIndex "reading".data ∧
      getActualORPIndex "reading".data < ((stripMarker "reading".data).length : Int) :=
  actual_orp_index_in_bounds "reading".data (by decide)

/-- Claim C9 counterexample: on the non-empty word `"⟩"` (marker only,
no letters), `getActualORPIndex` evaluates
`Math.min(0, cleanWord.length - 1) = -1`: the result is negative. -/
theorem actual_orp_index_negative_on_bare_marker :
    getActualORPIndex ['⟩'] < 0 := by
  decide

end RSVP
